import Mathlib

/-
Verification of the forecasting pipeline in scripts/run_pipeline.py.

The pipeline operates on pandas DataFrames holding numeric, string and
null (NaN) cells.  We embed a DataFrame as a list of rows, each row an
association list from column names to cells, together with the list of
column names.  Machine floats are modelled by rationals; NaN propagation
in a metric is modelled by the dedicated value `WVal.nonfin` (covering
both inf and nan, which behave identically under the strict `<`
comparisons the code performs).  The sklearn regressors are external
collaborators and are modelled as opaque fitted-prediction functions
supplied as parameters.
-/

/-- A single DataFrame cell: a numeric value, a string value, or null (NaN). -/
inductive Cell where
  | num : ℚ → Cell
  | str : String → Cell
  | null : Cell
deriving DecidableEq

instance : Inhabited Cell := ⟨Cell.null⟩

/-- A DataFrame row: an association list from column names to cells. -/
abbrev Row := List (String × Cell)

/-- Look up a column in a row; an absent column reads as null. -/
def rowGet : Row → String → Cell
  | [], _ => Cell.null
  | p :: t, c => if p.1 = c then p.2 else rowGet t c

/-- Whether a row carries an entry for the given column. -/
def rowHas : Row → String → Bool
  | [], _ => false
  | p :: t, c => decide (p.1 = c) || rowHas t c

/-- Column assignment on one row, mirroring pandas column assignment:
an existing entry is overwritten in place, otherwise the entry is appended. -/
def rowSet (r : Row) (c : String) (v : Cell) : Row :=
  if rowHas r c then r.map (fun p => if p.1 = c then (c, v) else p)
  else r ++ [(c, v)]

/-- A DataFrame: its column list and its rows. -/
structure Table where
  cols : List String
  rows : List Row
deriving DecidableEq

/-- Column assignment `df[c] = f(row)` on a whole table: the new value of
each row is computed from the original row, and the column list gains `c`
at the end when it was absent. -/
def setCol (t : Table) (c : String) (f : Row → Cell) : Table :=
  { cols := if c ∈ t.cols then t.cols else t.cols ++ [c]
  , rows := t.rows.map (fun r => rowSet r c (f r)) }

/-- Static per-family configuration (one entry of MODEL_CONFIGS). -/
structure ModelSpec where
  table : String
  target : String
  features : List String
  group_cols : List String
  description : String

/-- The MODEL_CONFIGS mapping of scripts/run_pipeline.py. -/
def MODEL_CONFIGS : String → Option ModelSpec
  | "demand" => some
      { table := "ml_demand_features"
      , target := "target_next_week"
      , features :=
          ["week_sin", "week_cos", "is_valentines", "is_easter_period",
           "is_mothers_day", "is_christmas", "is_summer", "quarter",
           "stems_lag_1w", "stems_lag_2w", "stems_lag_4w", "stems_lag_52w",
           "stems_rolling_4w_avg", "stems_rolling_8w_avg",
           "variety_avg_stems", "variety_std_stems", "variety_week_count",
           "customer_avg_stems", "customer_std_stems"]
      , group_cols := ["variety_name", "sub_customer_name"]
      , description := "Demand (Orders) Forecasting" }
  | "dispatch" => some
      { table := "ml_dispatch_features"
      , target := "target_next_week"
      , features :=
          ["week_sin", "week_cos", "is_valentines", "is_easter_period",
           "is_mothers_day", "is_christmas", "is_summer", "quarter",
           "dispatch_lag_1w", "dispatch_lag_2w", "dispatch_lag_4w", "dispatch_lag_52w",
           "dispatch_rolling_4w_avg", "dispatch_rolling_8w_avg",
           "orders_lag_1w", "orders_lag_4w",
           "current_fill_rate", "fill_rate_rolling_4w",
           "customer_avg_dispatch", "customer_std_dispatch", "customer_avg_fill_rate"]
      , group_cols := ["sub_customer_name"]
      , description := "Dispatch (Actuals) Forecasting" }
  | "production" => some
      { table := "ml_production_features"
      , target := "target_next_week"
      , features :=
          ["week_sin", "week_cos", "is_growing_season", "quarter",
           "stems_lag_1w", "stems_lag_2w", "stems_lag_4w", "stems_lag_52w",
           "stems_rolling_4w_avg", "stems_rolling_8w_avg",
           "farm_avg_stems", "farm_std_stems",
           "variety_avg_stems", "variety_std_stems"]
      , group_cols := ["farm", "variety_name"]
      , description := "Production (Harvest) Forecasting" }
  | "rejection" => some
      { table := "ml_rejection_features"
      , target := "target_rejection_rate"
      , features :=
          ["week_sin", "week_cos", "is_summer_heat", "is_winter",
           "is_peak_demand", "quarter",
           "rejection_rate_lag_1w", "rejection_rate_lag_2w", "rejection_rate_lag_4w",
           "rejection_rate_rolling_4w", "rejection_rate_rolling_8w",
           "farm_avg_rejection_rate", "variety_avg_rejection_rate"]
      , group_cols := ["farm", "variety_name"]
      , description := "Rejection Rate Forecasting" }
  | _ => none

/-- The feature columns of the spec actually present in the table
(`available_features`). -/
def availFeats (df : Table) (spec : ModelSpec) : List String :=
  spec.features.filter (fun f => decide (f ∈ df.cols))

/-- `dropna(subset = cs)` keeps a row iff none of the listed columns is null. -/
def rowNotNull (r : Row) (cs : List String) : Bool :=
  cs.all (fun c => decide (rowGet r c ≠ Cell.null))

/-- Numeric read of a cell with `fillna(0)` semantics: nulls become 0.
Non-numeric cells in feature or target columns are outside the modelled
scope and also read as 0. -/
def featVal (r : Row) (c : String) : ℚ :=
  match rowGet r c with
  | Cell.num q => q
  | _ => 0

/-- The feature vector of one row over the available feature columns. -/
def featVec (af : List String) (r : Row) : List ℚ := af.map (featVal r)

/-
Walk-forward trainer (train_expanding_window).

`sorted(df[c].unique())` is modelled by an insertion sort into a strictly
ascending list of the distinct numeric week keys.  Rows whose year or
week_number is null would carry a NaN composite key; a NaN key never
satisfies the `isin`/`==` filters of the loop, and NaN ordering inside
`sorted` is undefined float behaviour, so such keys are omitted from the
distinct-week sequence.
-/

/-- Insert a week key into a strictly ascending list of distinct keys. -/
def insertWeek (x : ℚ) : List ℚ → List ℚ
  | [] => [x]
  | y :: ys =>
      if x < y then x :: y :: ys
      else if y < x then y :: insertWeek x ys
      else y :: ys

/-- Sorted distinct week keys of a list of values. -/
def sortWeeks (l : List ℚ) : List ℚ := l.foldr insertWeek []

/-- The composite week key `year*100 + week_number` of a row. -/
def rowYW (r : Row) : Cell :=
  match rowGet r "year", rowGet r "week_number" with
  | Cell.num y, Cell.num w => Cell.num (y * 100 + w)
  | _, _ => Cell.null

/-- The input table after the assignment
`df[year_week] = df[year] * 100 + df[week_number]`. -/
def dfYW (df : Table) : Table := setCol df "year_week" rowYW

/-- The ascending distinct composite-week sequence W of the input table. -/
def wfWeeks (df : Table) : List ℚ :=
  sortWeeks ((dfYW df).rows.filterMap (fun r =>
    match rowGet r "year_week" with
    | Cell.num q => some q
    | _ => none))

/-- Training rows for loop index i: rows whose week key is in `weeks[:i]`. -/
def wfTrainDf (df : Table) (i : ℕ) : List Row :=
  (dfYW df).rows.filter (fun r =>
    match rowGet r "year_week" with
    | Cell.num v => decide (v ∈ (wfWeeks df).take i)
    | _ => false)

/-- Test rows for a target week: rows whose week key equals it. -/
def wfTestDf (df : Table) (tw : ℚ) : List Row :=
  (dfYW df).rows.filter (fun r => decide (rowGet r "year_week" = Cell.num tw))

/-- Training rows after `dropna(subset=[target] + available_features)`. -/
def wfTrainClean (df : Table) (spec : ModelSpec) (i : ℕ) : List Row :=
  (wfTrainDf df i).filter (fun r => rowNotNull r (spec.target :: availFeats df spec))

/-- Test rows after `dropna(subset=available_features)`. -/
def wfTestClean (df : Table) (spec : ModelSpec) (tw : ℚ) : List Row :=
  (wfTestDf df tw).filter (fun r => rowNotNull r (availFeats df spec))

/-- An abstract fitted regressor: training features and targets, then one
test feature vector, to one prediction.  Stands in for the external
GradientBoostingRegressor with its fixed hyperparameters and seed. -/
abbrev FitFn := List (List ℚ) → List ℚ → List ℚ → ℚ

/-- One emitted walk-forward prediction row. -/
structure PredRow where
  year : Cell
  week_number : Cell
  week_key : Cell
  groups : List (String × Cell)
  predicted : ℚ
  actual : Cell
  model_type : String
  train_weeks : ℕ
deriving DecidableEq, Inhabited

/-- Build the prediction row emitted for one cleaned test row at loop
index i. -/
def mkWfPred (fit : FitFn) (df : Table) (spec : ModelSpec) (modelName : String)
    (i : ℕ) (r : Row) : PredRow :=
  let af := availFeats df spec
  let tc := wfTrainClean df spec i
  { year := rowGet r "year"
  , week_number := rowGet r "week_number"
  , week_key := rowGet r "week_key"
  , groups := spec.group_cols.map (fun c => (c, rowGet r c))
  , predicted := fit (tc.map (featVec af)) (tc.map (fun tr => featVal tr spec.target)) (featVec af r)
  , actual := if spec.target ∈ (dfYW df).cols then rowGet r spec.target else Cell.null
  , model_type := modelName
  , train_weeks := ((wfWeeks df).take i).length }

/-- The body of the expanding-window loop for index i: the three skip
guards, then one prediction per cleaned test row of the target week. -/
def wfStep (fit : FitFn) (df : Table) (spec : ModelSpec) (modelName : String)
    (i : ℕ) : List PredRow :=
  let tw := (wfWeeks df).getD i 0
  if (wfTestDf df tw).isEmpty then []
  else if (wfTrainClean df spec i).length < 100 then []
  else if (wfTestClean df spec tw).isEmpty then []
  else (wfTestClean df spec tw).map (mkWfPred fit df spec modelName i)

/-- train_expanding_window.  The first component is the state of the
caller-shared DataFrame after the year_week column assignment (the
function mutates its argument); the second is the concatenated
prediction set, empty when no week produced predictions. -/
def train_expanding_window (fit : FitFn) (df : Table) (modelName : String)
    (spec : ModelSpec) (min_train_weeks : ℕ) : Table × List PredRow :=
  (dfYW df,
   (List.range' min_train_weeks ((wfWeeks df).length - min_train_weeks)).flatMap
     (wfStep fit df spec modelName))

/-- The composite week key carried by an emitted prediction row. -/
def predRowYW (p : PredRow) : Option ℚ :=
  match p.year, p.week_number with
  | Cell.num y, Cell.num w => some (y * 100 + w)
  | _, _ => none

/-
Holdout evaluator (train_final_model) and its metric computations.

Metric values are floats in the source.  A float metric that is inf or
nan is represented by `WVal.nonfin`: under the strict `<` comparison of
the selection loop both compare false as the left operand, and a finite
value compares true against the initial +inf best, which is the only
non-finite value ever stored as the running best.  `rmse` is the square
root of `mse` and leaves the rationals, so the mean squared error itself
is recorded; `r2_score` degenerates when the test variance is zero and
that corner is likewise recorded as non-finite.
-/

/-- A float metric value: finite, or non-finite (inf or nan). -/
inductive WVal where
  | fin : ℚ → WVal
  | nonfin : WVal
deriving DecidableEq

/-- Sum of absolute values. -/
def sumAbs (l : List ℚ) : ℚ := (l.map (fun a => |a|)).sum

/-- Sum of absolute elementwise errors. -/
def sumAbsErr (yt yp : List ℚ) : ℚ := ((yt.zip yp).map (fun v => |v.1 - v.2|)).sum

/-- The WMAPE of line 290:
`np.sum(np.abs(y_test - y_pred)) / np.sum(np.abs(y_test)) * 100`.
No floor is applied to the denominator; a zero denominator yields a
non-finite float. -/
def wmapeOf (yt yp : List ℚ) : WVal :=
  if sumAbs yt = 0 then WVal.nonfin
  else WVal.fin (sumAbsErr yt yp / sumAbs yt * 100)

/-- mean_absolute_error; the empty mean is non-finite. -/
def maeOf (yt yp : List ℚ) : WVal :=
  if yt.length = 0 then WVal.nonfin
  else WVal.fin (sumAbsErr yt yp / (yt.length : ℚ))

/-- mean_squared_error; the source reports rmse, its square root. -/
def mseOf (yt yp : List ℚ) : WVal :=
  if yt.length = 0 then WVal.nonfin
  else WVal.fin (((yt.zip yp).map (fun v => (v.1 - v.2) ^ 2)).sum / (yt.length : ℚ))

/-- r2_score; empty or zero-variance test targets degenerate. -/
def r2Of (yt yp : List ℚ) : WVal :=
  if yt.length = 0 then WVal.nonfin
  else
    let mean := yt.sum / (yt.length : ℚ)
    let ssTot := (yt.map (fun a => (a - mean) ^ 2)).sum
    let ssRes := ((yt.zip yp).map (fun v => (v.1 - v.2) ^ 2)).sum
    if ssTot = 0 then WVal.nonfin else WVal.fin (1 - ssRes / ssTot)

/-- A candidate algorithm of the holdout roster: its name, its fitted
prediction function (train features, train targets, test features to
test predictions, deterministic under the fixed seed), and its
feature_importances_ attribute when it exposes one. -/
structure Algo where
  name : String
  run : List (List ℚ) → List ℚ → List (List ℚ) → List ℚ
  importances : Option (List ℚ)

/-- One row of the model-comparison metrics result. -/
structure MetricRow where
  model_type : String
  algorithm : String
  mae : WVal
  mse : WVal
  r2 : WVal
  wmape : WVal
  train_samples : ℕ
  test_samples : ℕ
deriving DecidableEq

/-- One row of the feature-importance result. -/
structure ImportanceRow where
  model_type : String
  feature : String
  importance : ℚ
deriving DecidableEq

/-- Insertion into a list sorted by descending importance
(sort_values ascending=False). -/
def insertDesc (x : ImportanceRow) : List ImportanceRow → List ImportanceRow
  | [] => [x]
  | y :: ys => if y.importance < x.importance then x :: y :: ys else y :: insertDesc x ys

/-- Sort importance rows by descending importance. -/
def sortImportance (l : List ImportanceRow) : List ImportanceRow := l.foldr insertDesc []

/-- The rows of prepare_data after
`dropna(subset=[target_col] + available_features)`. -/
def ppClean (df : Table) (spec : ModelSpec) : List Row :=
  df.rows.filter (fun r => rowNotNull r (spec.target :: availFeats df spec))

/-- The metadata columns kept by prepare_data. -/
def ppMetaCols (df : Table) (spec : ModelSpec) : List String :=
  (["year", "week_number", "week_key"] ++ spec.group_cols).filter (fun c => decide (c ∈ df.cols))

/-- prepare_data: available-feature selection, the fatal missing-target
check (a raised ValueError is an error result), row cleaning, the
filled feature matrix, the target vector, the metadata slice and the
usable feature names. -/
def prepare_data (df : Table) (spec : ModelSpec) :
    Except String (List (List ℚ) × List ℚ × Table × List String) :=
  if spec.target ∈ df.cols then
    Except.ok ((ppClean df spec).map (featVec (availFeats df spec)),
               (ppClean df spec).map (fun r => featVal r spec.target),
               { cols := ppMetaCols df spec
               , rows := (ppClean df spec).map (fun r =>
                   (ppMetaCols df spec).map (fun c => (c, rowGet r c))) },
               availFeats df spec)
  else Except.error ("Target column " ++ spec.target ++ " not found in data")

/-- `n_train = int(len(X) * (1 - test_size))`. -/
def nTrainOf (X : List (List ℚ)) (ts : ℚ) : ℕ := (⌊(X.length : ℚ) * (1 - ts)⌋).toNat

/-- The held-out predictions of every roster algorithm. -/
def algoPreds (algos : List Algo) (X : List (List ℚ)) (y : List ℚ) (ts : ℚ) :
    List (List ℚ) :=
  algos.map (fun a =>
    a.run (X.take (nTrainOf X ts)) (y.take (nTrainOf X ts)) (X.drop (nTrainOf X ts)))

/-- The WMAPE score of every roster algorithm on the held-out tail. -/
def coreScores (algos : List Algo) (X : List (List ℚ)) (y : List ℚ) (ts : ℚ) :
    List WVal :=
  (algoPreds algos X y ts).map (fun yp => wmapeOf (y.drop (nTrainOf X ts)) yp)

/-- The selection loop `if wmape < best_wmape`, position by position.
`none` stands for the initial best (+inf paired with no model).  A
non-finite candidate never wins: inf is not < inf, and nan is not < any
value.  A finite candidate beats the initial +inf and otherwise wins
exactly when strictly smaller than the finite running best. -/
def selectFrom (pos : ℕ) (best : Option (ℕ × ℚ)) : List WVal → Option (ℕ × ℚ)
  | [] => best
  | w :: rest =>
      match w, best with
      | WVal.fin q, none => selectFrom (pos + 1) (some (pos, q)) rest
      | WVal.fin q, some (bk, bq) =>
          if q < bq then selectFrom (pos + 1) (some (pos, q)) rest
          else selectFrom (pos + 1) (some (bk, bq)) rest
      | WVal.nonfin, b => selectFrom (pos + 1) b rest

/-- Index and score of the winning algorithm, if any candidate ever beat
the initial +inf. -/
def selectBest (scores : List WVal) : Option (ℕ × ℚ) := selectFrom 0 none scores

/-- Add a column name if absent (pandas column assignment on the frame). -/
def addCol (cs : List String) (c : String) : List String :=
  if c ∈ cs then cs else cs ++ [c]

/-- The holdout predictions table: the metadata slice of the test rows
with actual, predicted, model_type and algorithm columns assigned. -/
def mkPredTable (metaCols : List String) (metaRows : List Row)
    (yTest : List ℚ) (yPred : List ℚ) (modelName algName : String) : Table :=
  { cols := addCol (addCol (addCol (addCol metaCols "actual") "predicted") "model_type") "algorithm"
  , rows := (metaRows.zip (yTest.zip yPred)).map (fun rp =>
      rowSet (rowSet (rowSet (rowSet rp.1 "actual" (Cell.num rp.2.1))
        "predicted" (Cell.num rp.2.2)) "model_type" (Cell.str modelName))
        "algorithm" (Cell.str algName)) }

/-- One metric row of the comparison loop. -/
def mkMetricRow (modelName : String) (a : Algo) (yTest yPred : List ℚ)
    (nTr nTe : ℕ) : MetricRow :=
  { model_type := modelName
  , algorithm := a.name
  , mae := maeOf yTest yPred
  , mse := mseOf yTest yPred
  , r2 := r2Of yTest yPred
  , wmape := wmapeOf yTest yPred
  , train_samples := nTr
  , test_samples := nTe }

/-- The body of train_final_model after prepare_data: the chronological
80/20 split, the per-algorithm metric loop, the strict-improvement
selection, the winner's importance rows (empty when the winner exposes
none), and the tagged holdout prediction table.  When no algorithm ever
beat the initial +inf best, `best_model` is still None and building the
prediction table raises (an error result). -/
def train_final_core (algos : List Algo) (X : List (List ℚ)) (y : List ℚ)
    (metadata : Table) (featureNames : List String) (modelName : String)
    (ts : ℚ) : Except String (List MetricRow × List ImportanceRow × Table) :=
  let n := nTrainOf X ts
  let yTest := y.drop n
  let preds := algoPreds algos X y ts
  let results := (algos.zip preds).map (fun ap =>
    mkMetricRow modelName ap.1 yTest ap.2 n (X.length - n))
  match selectBest (coreScores algos X y ts) with
  | none => Except.error "AttributeError: NoneType object has no attribute predict"
  | some kq =>
      let best := algos.getD kq.1 { name := "", run := fun _ _ _ => [], importances := none }
      let impRows := match best.importances with
        | some imps => sortImportance ((featureNames.zip imps).map (fun fi =>
            { model_type := modelName, feature := fi.1, importance := fi.2 }))
        | none => []
      let bestPreds := best.run (X.take n) (y.take n) (X.drop n)
      Except.ok (results, impRows,
        mkPredTable metadata.cols (metadata.rows.drop n) yTest bestPreds modelName best.name)

/-- train_final_model: prepare_data, then the holdout core.  The roster
is a parameter: RandomForest and GradientBoosting always, XGBoost and
LightGBM when importable. -/
def train_final_model (algos : List Algo) (df : Table) (modelName : String)
    (spec : ModelSpec) (ts : ℚ) :
    Except String (List MetricRow × List ImportanceRow × Table) :=
  match prepare_data df spec with
  | Except.error e => Except.error e
  | Except.ok (X, y, md, fns) => train_final_core algos X y md fns modelName ts

/-
Accuracy aggregator (calculate_accuracy_breakdowns).

Sums ignore null cells (pandas skipna); a row whose actual or predicted
is null contributes no absolute error.  Group keys containing a null are
dropped (groupby dropna) and the surviving distinct keys are enumerated
in ascending order as pandas sorts group keys.
-/

/-- One aggregated accuracy row. -/
structure BreakdownRow where
  key : List Cell
  actual : ℚ
  predicted : ℚ
  abs_error : ℚ
  wmape : ℚ
  model_type : String
deriving DecidableEq

/-- skipna sum contribution of the actual column. -/
def rowActualQ (r : Row) : ℚ :=
  match rowGet r "actual" with
  | Cell.num q => q
  | _ => 0

/-- skipna sum contribution of the predicted column. -/
def rowPredQ (r : Row) : ℚ :=
  match rowGet r "predicted" with
  | Cell.num q => q
  | _ => 0

/-- skipna sum contribution of the absolute error column. -/
def rowAbsErrQ (r : Row) : ℚ :=
  match rowGet r "actual", rowGet r "predicted" with
  | Cell.num a, Cell.num p => |a - p|
  | _, _ => 0

/-- The per-row percent error with the actual floored at 1
(`clip(lower=1)`); computed by the source but not aggregated. -/
def rowPctErrQ (r : Row) : ℚ :=
  match rowGet r "actual", rowGet r "predicted" with
  | Cell.num a, Cell.num p => |a - p| / max a 1 * 100
  | _, _ => 0

/-- The grouping key of a row over the given columns, none when any
component is null. -/
def cellKey (r : Row) (cols : List String) : Option (List Cell) :=
  if cols.all (fun c => decide (rowGet r c ≠ Cell.null)) then some (cols.map (rowGet r))
  else none

/-- Ordering of group-key cells: numbers below strings, numerically and
lexicographically within each kind. -/
def cellLt : Cell → Cell → Bool
  | Cell.num a, Cell.num b => decide (a < b)
  | Cell.str a, Cell.str b => decide (a < b)
  | Cell.num _, Cell.str _ => true
  | _, _ => false

/-- Lexicographic ordering of group keys. -/
def keyLt : List Cell → List Cell → Bool
  | [], [] => false
  | [], _ :: _ => true
  | _ :: _, [] => false
  | a :: as, b :: bs => if cellLt a b then true else if cellLt b a then false else keyLt as bs

/-- Insert a group key into the ascending distinct key list. -/
def insertKey (x : List Cell) : List (List Cell) → List (List Cell)
  | [] => [x]
  | y :: ys => if keyLt x y then x :: y :: ys else if keyLt y x then y :: insertKey x ys else y :: ys

/-- Ascending distinct group keys. -/
def sortKeys (l : List (List Cell)) : List (List Cell) := l.foldr insertKey []

/-- One grouped aggregation: per distinct key, the summed actual,
predicted and absolute error, and the rolled-up WMAPE with the
denominator floored at 1 (`clip(lower=1)`). -/
def aggFor (rows : List Row) (cols : List String) (modelName : String) :
    List BreakdownRow :=
  (sortKeys (rows.filterMap (fun r => cellKey r cols))).map (fun k =>
    let grp := rows.filter (fun r => decide (cols.map (rowGet r) = k))
    let act := (grp.map rowActualQ).sum
    let prd := (grp.map rowPredQ).sum
    let ae := (grp.map rowAbsErrQ).sum
    { key := k
    , actual := act
    , predicted := prd
    , abs_error := ae
    , wmape := ae / max act 1 * 100
    , model_type := modelName })

/-- calculate_accuracy_breakdowns: the weekly rollup and one rollup per
grouping column present in the predictions table. -/
def calculate_accuracy_breakdowns (pdf : Table) (modelName : String)
    (spec : ModelSpec) : List (String × List BreakdownRow) :=
  ("weekly", aggFor pdf.rows ["year", "week_number"] modelName) ::
  (spec.group_cols.filter (fun c => decide (c ∈ pdf.cols))).map
    (fun c => (c, aggFor pdf.rows [c] modelName))

/-- The per-family pipeline results. -/
structure PipelineResults where
  expanding_predictions : List PredRow
  final_predictions : Table
  metrics : List MetricRow
  importance : List ImportanceRow
  breakdowns : List (String × List BreakdownRow)
deriving DecidableEq

/-- run_model_pipeline for one family on a loaded feature table: the
walk-forward trainer mutates the shared DataFrame, and the holdout
evaluator then runs on that same mutated frame.  The early None returns
for a missing or empty feature table, and a raised exception further
down, are both error results here. -/
def run_model_pipeline (fit : FitFn) (algos : List Algo) (df : Table)
    (modelName : String) (spec : ModelSpec) : Except String PipelineResults :=
  if df.rows.isEmpty then Except.error "No data found in feature table"
  else
    let ew := train_expanding_window fit df modelName spec 12
    match train_final_model algos ew.1 modelName spec (1 / 5) with
    | Except.error e => Except.error e
    | Except.ok (mets, imp, fp) =>
        Except.ok { expanding_predictions := ew.2
                  , final_predictions := fp
                  , metrics := mets
                  , importance := imp
                  , breakdowns := calculate_accuracy_breakdowns fp modelName spec }

/-- The placeholder value of `algos.getD` (never reached when the winning
index is in range). -/
def defaultAlgo : Algo := { name := "", run := fun _ _ _ => [], importances := none }

/-
Concrete tables for evaluating the pipeline.  Batteries seals rational
arithmetic against unfolding; evaluation inside proofs needs it
semireducible again.
-/

attribute [local semireducible] Rat.add Rat.mul Rat.sub Rat.inv

/-- A feature row of the two-week demo table. -/
def mkRowA (y w : ℚ) (f t : Cell) : Row :=
  [("year", Cell.num y), ("week_number", Cell.num w), ("week_key", Cell.num (y * 100 + w)),
   ("g", Cell.str "A"), ("t", t), ("f", f)]

/-- Demo table: 100 clean training rows in week 202301 and two test rows
in week 202302, one of which has a null feature value. -/
def df0 : Table :=
  { cols := ["year", "week_number", "week_key", "g", "t", "f"]
  , rows := List.replicate 100 (mkRowA 2023 1 (Cell.num 1) (Cell.num 5)) ++
      [mkRowA 2023 2 (Cell.num 2) (Cell.num 7), mkRowA 2023 2 Cell.null (Cell.num 8)] }

/-- Demo spec with target t, one feature f and one grouping column g. -/
def spec0 : ModelSpec :=
  { table := "tbl", target := "t", features := ["f"], group_cols := ["g"]
  , description := "demo" }

/-- A constant stand-in regressor. -/
def fit0 : FitFn := fun _ _ _ => 0

/-- The single prediction the walk-forward trainer emits on df0. -/
def p0 : PredRow := ((train_expanding_window fit0 df0 "demand" spec0 1).2).getD 0 default

/-- An empty feature table. -/
def dfE : Table := { cols := [], rows := [] }

/-- A numeric feature row of the two-row holdout tables. -/
def mkRowB (y w t f : ℚ) : Row :=
  [("year", Cell.num y), ("week_number", Cell.num w), ("week_key", Cell.num (y * 100 + w)),
   ("t", Cell.num t), ("f", Cell.num f)]

/-- Spec with no grouping columns for the holdout demos. -/
def spec1 : ModelSpec :=
  { table := "tbl", target := "t", features := ["f"], group_cols := []
  , description := "demo" }

/-- Holdout demo table whose target is identically zero. -/
def df1 : Table :=
  { cols := ["year", "week_number", "week_key", "t", "f"]
  , rows := [mkRowB 2023 1 0 1, mkRowB 2023 2 0 2] }

/-- Holdout demo table with nonzero targets. -/
def df2 : Table :=
  { cols := ["year", "week_number", "week_key", "t", "f"]
  , rows := [mkRowB 2023 1 5 1, mkRowB 2023 2 7 2] }

/-- The metadata slice prepare_data extracts from df1 and df2. -/
def md1 : Table :=
  { cols := ["year", "week_number", "week_key"]
  , rows := [[("year", Cell.num 2023), ("week_number", Cell.num 1), ("week_key", Cell.num 202301)],
             [("year", Cell.num 2023), ("week_number", Cell.num 2), ("week_key", Cell.num 202302)]] }

/-- A roster algorithm predicting the constant 1. -/
def algo1 : Algo :=
  { name := "GradientBoosting", run := fun _ _ xt => xt.map (fun _ => 1), importances := some [] }

/-- A roster algorithm predicting the constant 2, exposing importances. -/
def algoA : Algo :=
  { name := "RandomForest", run := fun _ _ xt => xt.map (fun _ => 2), importances := some [1] }

/-- Projection out of a successful holdout result. -/
def okParts : Except String (List MetricRow × List ImportanceRow × Table) →
    List MetricRow × List ImportanceRow × Table
  | Except.ok a => a
  | Except.error _ => ([], [], { cols := [], rows := [] })

/-- The holdout run on df2 with the single-entry roster. -/
def tfm2 : Except String (List MetricRow × List ImportanceRow × Table) :=
  train_final_model [algoA] df2 "demand" spec1 (1 / 5)

/-- A tiny holdout prediction table with a zero actual. -/
def pdf0 : Table :=
  { cols := ["year", "week_number", "actual", "predicted"]
  , rows := [[("year", Cell.num 2023), ("week_number", Cell.num 1),
              ("actual", Cell.num 0), ("predicted", Cell.num 3)]] }

/-- The breakdowns of the tiny prediction table. -/
def brk0 : List (String × List BreakdownRow) :=
  calculate_accuracy_breakdowns pdf0 "demand" spec1

/-- Its weekly entry. -/
def pr0 : String × List BreakdownRow := brk0.getD 0 ("", [])

/-- Its single weekly rollup row. -/
def b0 : BreakdownRow :=
  pr0.2.getD 0 { key := [], actual := 0, predicted := 0, abs_error := 0, wmape := 0, model_type := "" }

/- Basic lemmas about the sorted distinct week sequence. -/

lemma mem_insertWeek (a x : ℚ) (l : List ℚ) :
    a ∈ insertWeek x l ↔ a = x ∨ a ∈ l := by
  induction l with
  | nil => simp [insertWeek]
  | cons y ys ih =>
      by_cases h1 : x < y
      · simp [insertWeek, h1]
      · by_cases h2 : y < x
        · simp only [insertWeek, if_neg h1, if_pos h2, List.mem_cons, ih]
          tauto
        · have hxy : x = y := le_antisymm (not_lt.mp h2) (not_lt.mp h1)
          subst hxy
          simp only [insertWeek, if_neg h1, if_neg h2, List.mem_cons]
          tauto

lemma pairwise_insertWeek (x : ℚ) (l : List ℚ)
    (h : List.Pairwise (· < ·) l) :
    List.Pairwise (· < ·) (insertWeek x l) := by
  induction l with
  | nil => simp [insertWeek]
  | cons y ys ih =>
      rcases List.pairwise_cons.mp h with ⟨hy, hys⟩
      by_cases h1 : x < y
      · simp only [insertWeek, if_pos h1]
        refine List.pairwise_cons.mpr ⟨?_, h⟩
        intro b hb
        rcases List.mem_cons.mp hb with hb | hb
        · exact hb ▸ h1
        · exact lt_trans h1 (hy b hb)
      · by_cases h2 : y < x
        · simp only [insertWeek, if_neg h1, if_pos h2]
          refine List.pairwise_cons.mpr ⟨?_, ih hys⟩
          intro b hb
          rcases (mem_insertWeek b x ys).mp hb with hb | hb
          · exact hb ▸ h2
          · exact hy b hb
        · simp only [insertWeek, if_neg h1, if_neg h2]
          exact h

lemma pairwise_sortWeeks (l : List ℚ) :
    List.Pairwise (· < ·) (sortWeeks l) := by
  induction l with
  | nil => simp [sortWeeks]
  | cons a t ih => exact pairwise_insertWeek a _ ih

lemma mem_sortWeeks (a : ℚ) (l : List ℚ) : a ∈ sortWeeks l ↔ a ∈ l := by
  induction l with
  | nil => simp [sortWeeks]
  | cons b t ih =>
      show a ∈ insertWeek b (sortWeeks t) ↔ _
      rw [mem_insertWeek]
      simp [ih]

lemma wfWeeks_pairwise (df : Table) : List.Pairwise (· < ·) (wfWeeks df) :=
  pairwise_sortWeeks _

/-- Strictly ascending entries compared across positions. -/
lemma pairwise_lt_getD (W : List ℚ) (hW : List.Pairwise (· < ·) W)
    (i j : ℕ) (hij : i < j) (hj : j < W.length) :
    W.getD i 0 < W.getD j 0 := by
  have hi : i < W.length := lt_trans hij hj
  rw [List.getD_eq_getElem W 0 hi, List.getD_eq_getElem W 0 hj]
  exact List.pairwise_iff_get.mp hW ⟨i, hi⟩ ⟨j, hj⟩ hij

/-- In a strictly ascending list, the first i entries are exactly the
entries strictly below the entry at position i. -/
lemma take_eq_filter_lt (W : List ℚ) (hW : List.Pairwise (· < ·) W) :
    ∀ i : ℕ, i < W.length →
      W.take i = W.filter (fun w => decide (w < W.getD i 0)) := by
  induction W with
  | nil => intro i hi; simp at hi
  | cons a t ih =>
      intro i hi
      rcases List.pairwise_cons.mp hW with ⟨ha, ht⟩
      match i with
      | 0 =>
          have h1 : ¬ (a < a) := lt_irrefl a
          have h2 : ∀ b ∈ t, ¬ (b < a) := fun b hb => not_lt.mpr (le_of_lt (ha b hb))
          simp only [List.take_zero, List.getD_cons_zero]
          rw [eq_comm, List.filter_eq_nil_iff]
          intro b hb
          rcases List.mem_cons.mp hb with hb | hb
          · simp [hb]
          · simp [h2 b hb]
      | k + 1 =>
          have hk : k < t.length := by
            simpa using Nat.lt_of_succ_lt_succ hi
          have hmem : t.getD k 0 ∈ t := by
            rw [List.getD_eq_getElem t 0 hk]
            exact List.getElem_mem hk
          have hag : a < t.getD k 0 := ha _ hmem
          simp only [List.take_succ_cons, List.getD_cons_succ]
          rw [List.filter_cons_of_pos (by simpa using hag)]
          rw [ih ht k hk]

lemma wfWeeks_getD_ne (df : Table) (i j : ℕ)
    (hi : i < (wfWeeks df).length) (hj : j < (wfWeeks df).length)
    (hne : i ≠ j) :
    (wfWeeks df).getD i 0 ≠ (wfWeeks df).getD j 0 := by
  rcases Nat.lt_or_ge i j with h | h
  · exact ne_of_lt (pairwise_lt_getD _ (wfWeeks_pairwise df) i j h hj)
  · have : j < i := lt_of_le_of_ne h (Ne.symm hne)
    exact (ne_of_lt (pairwise_lt_getD _ (wfWeeks_pairwise df) j i this hi)).symm

/- Lemmas about row assignment. -/

lemma rowGet_map_other (t : Row) (c cq : String) (v : Cell) (h : cq ≠ c) :
    rowGet (t.map (fun p => if p.1 = c then (c, v) else p)) cq = rowGet t cq := by
  induction t with
  | nil => simp [rowGet]
  | cons p t ih =>
      by_cases hp : p.1 = c
      · have hne : ¬ (c = cq) := fun hcq => h (hcq.symm)
        have hne2 : ¬ (p.1 = cq) := fun hcq => h ((hp ▸ hcq).symm)
        simp [rowGet, hp, hne, hne2, ih]
      · by_cases hq : p.1 = cq
        · simp [rowGet, hp, hq, h]
        · simp [rowGet, hp, hq, ih]

lemma rowGet_append_single_other (t : Row) (c cq : String) (v : Cell) (h : cq ≠ c) :
    rowGet (t ++ [(c, v)]) cq = rowGet t cq := by
  induction t with
  | nil =>
      have hcc : ¬ (c = cq) := fun hcq => h hcq.symm
      simp [rowGet, hcc]
  | cons p t ih =>
      by_cases hq : p.1 = cq
      · simp [rowGet, hq]
      · simp [rowGet, hq, ih]

lemma rowGet_set_other (r : Row) (c cq : String) (v : Cell) (h : cq ≠ c) :
    rowGet (rowSet r c v) cq = rowGet r cq := by
  unfold rowSet
  by_cases hh : rowHas r c
  · simp only [hh, if_true]
    exact rowGet_map_other r c cq v h
  · simp only [hh]
    simp only [Bool.false_eq_true, if_false]
    exact rowGet_append_single_other r c cq v h

lemma rowGet_set_same (r : Row) (c : String) (v : Cell) :
    rowGet (rowSet r c v) c = v := by
  unfold rowSet
  induction r with
  | nil => simp [rowHas, rowGet]
  | cons p t ih =>
      by_cases hp : p.1 = c
      · simp [rowHas, hp, rowGet]
      · have hstep : rowHas (p :: t) c = rowHas t c := by simp [rowHas, hp]
        rw [hstep]
        by_cases hh : rowHas t c
        · simp only [hh, if_true] at ih ⊢
          simp [List.map_cons, rowGet, hp, ih]
        · simp only [hh] at ih ⊢
          simp only [Bool.false_eq_true, if_false] at ih ⊢
          simp [List.cons_append, rowGet, hp, ih]

/- Structural lemmas about the mutated table and emitted rows. -/

/-- The composite key only depends on the year and week_number cells. -/
lemma rowYW_congr (r rq : Row)
    (hy : rowGet r "year" = rowGet rq "year")
    (hw : rowGet r "week_number" = rowGet rq "week_number") :
    rowYW r = rowYW rq := by
  unfold rowYW
  rw [hy, hw]

/-- Every row of the mutated table reads its own composite key in the
year_week column. -/
lemma rowGet_yw_of_mem_dfYW (df : Table) (r : Row) (h : r ∈ (dfYW df).rows) :
    rowGet r "year_week" = rowYW r := by
  rcases List.mem_map.mp h with ⟨r0, _, hr0⟩
  subst hr0
  have hyw : rowGet (rowSet r0 "year_week" (rowYW r0)) "year_week" = rowYW r0 :=
    rowGet_set_same r0 "year_week" (rowYW r0)
  have hy : rowGet (rowSet r0 "year_week" (rowYW r0)) "year" = rowGet r0 "year" :=
    rowGet_set_other r0 "year_week" "year" (rowYW r0) (by decide)
  have hw : rowGet (rowSet r0 "year_week" (rowYW r0)) "week_number" = rowGet r0 "week_number" :=
    rowGet_set_other r0 "year_week" "week_number" (rowYW r0) (by decide)
  rw [hyw]
  exact (rowYW_congr _ _ hy hw).symm

/-- Membership in a walk-forward step: the emitted rows are exactly the
images of the cleaned test rows, and all three guards passed. -/
lemma mem_wfStep (fit : FitFn) (df : Table) (spec : ModelSpec)
    (modelName : String) (i : ℕ) (p : PredRow)
    (hp : p ∈ wfStep fit df spec modelName i) :
    (wfTestDf df ((wfWeeks df).getD i 0)).isEmpty = false ∧
    100 ≤ (wfTrainClean df spec i).length ∧
    ∃ r ∈ wfTestClean df spec ((wfWeeks df).getD i 0),
      p = mkWfPred fit df spec modelName i r := by
  simp only [wfStep] at hp
  split_ifs at hp with h1 h2 h3
  · simp at hp
  · simp at hp
  · simp at hp
  · rcases List.mem_map.mp hp with ⟨r, hr, hpr⟩
    exact ⟨Bool.eq_false_iff.mpr h1, not_lt.mp h2, r, hr, hpr.symm⟩

/-- An emitted row of step i carries the composite key of target week i. -/
lemma predRowYW_of_mem_wfStep (fit : FitFn) (df : Table) (spec : ModelSpec)
    (modelName : String) (i : ℕ) (p : PredRow)
    (hp : p ∈ wfStep fit df spec modelName i) :
    predRowYW p = some ((wfWeeks df).getD i 0) := by
  rcases mem_wfStep fit df spec modelName i p hp with ⟨-, -, r, hr, hpr⟩
  have hrtest : r ∈ wfTestDf df ((wfWeeks df).getD i 0) :=
    (List.mem_filter.mp hr).1
  have hrmem : r ∈ (dfYW df).rows := (List.mem_filter.mp hrtest).1
  have heq : rowGet r "year_week" = Cell.num ((wfWeeks df).getD i 0) := by
    have := (List.mem_filter.mp hrtest).2
    simpa using this
  have hyw : rowYW r = Cell.num ((wfWeeks df).getD i 0) := by
    rw [← rowGet_yw_of_mem_dfYW df r hrmem]; exact heq
  subst hpr
  unfold rowYW at hyw
  unfold predRowYW mkWfPred
  cases hy : rowGet r "year" with
  | num yv =>
      cases hw : rowGet r "week_number" with
      | num wv =>
          simp only [hy, hw] at hyw
          simp only [hy, hw]
          exact congrArg some (Cell.num.inj hyw)
      | str s => rw [hy, hw] at hyw; exact absurd hyw (by simp)
      | null => rw [hy, hw] at hyw; exact absurd hyw (by simp)
  | str s =>
      rw [hy] at hyw
      exact absurd hyw (by cases rowGet r "week_number" <;> simp)
  | null =>
      rw [hy] at hyw
      exact absurd hyw (by cases rowGet r "week_number" <;> simp)

/-- Membership in the full prediction set decomposes into a step index. -/
lemma mem_expanding_window (fit : FitFn) (df : Table) (modelName : String)
    (spec : ModelSpec) (m : ℕ) (p : PredRow)
    (hp : p ∈ (train_expanding_window fit df modelName spec m).2) :
    ∃ i, m ≤ i ∧ i < (wfWeeks df).length ∧ p ∈ wfStep fit df spec modelName i := by
  unfold train_expanding_window at hp
  rcases List.mem_flatMap.mp hp with ⟨i, hi, hstep⟩
  rcases List.mem_range'_1.mp hi with ⟨him, hiu⟩
  exact ⟨i, him, by omega, hstep⟩

/-- Each cleaned training row at loop index i carries a numeric week key
drawn from `weeks[:i]`. -/
lemma wfTrainClean_week (df : Table) (spec : ModelSpec) (i : ℕ)
    (r : Row) (hr : r ∈ wfTrainClean df spec i) :
    ∃ v, rowGet r "year_week" = Cell.num v ∧ v ∈ (wfWeeks df).take i := by
  have hr2 : r ∈ wfTrainDf df i := (List.mem_filter.mp hr).1
  have hcond := (List.mem_filter.mp hr2).2
  cases hv : rowGet r "year_week" with
  | num v =>
      refine ⟨v, rfl, ?_⟩
      rw [hv] at hcond
      simpa using hcond
  | str s => rw [hv] at hcond; simp at hcond
  | null => rw [hv] at hcond; simp at hcond

/-- C1: Leakage invariant.  Every prediction emitted by the walk-forward
trainer belongs to a target week W[i] with i at least the warm-up
parameter; every row of the training set fitted for that week has a
composite week key strictly below W[i]; and the weeks defining that
training set, `weeks[:i]`, are exactly the weeks of W strictly below
W[i]. -/
theorem walk_forward_leakage_invariant (fit : FitFn) (df : Table)
    (modelName : String) (spec : ModelSpec) (m : ℕ) :
    ∀ p ∈ (train_expanding_window fit df modelName spec m).2,
      ∃ i, m ≤ i ∧ i < (wfWeeks df).length ∧
        predRowYW p = some ((wfWeeks df).getD i 0) ∧
        (∀ r ∈ wfTrainClean df spec i,
          ∃ v, rowGet r "year_week" = Cell.num v ∧ v < (wfWeeks df).getD i 0) ∧
        (wfWeeks df).take i =
          (wfWeeks df).filter (fun w => decide (w < (wfWeeks df).getD i 0)) := by
  intro p hp
  rcases mem_expanding_window fit df modelName spec m p hp with ⟨i, him, hil, hstep⟩
  have htake := take_eq_filter_lt (wfWeeks df) (wfWeeks_pairwise df) i hil
  refine ⟨i, him, hil, predRowYW_of_mem_wfStep fit df spec modelName i p hstep, ?_, htake⟩
  intro r hr
  rcases wfTrainClean_week df spec i r hr with ⟨v, hv, hvtake⟩
  refine ⟨v, hv, ?_⟩
  rw [htake] at hvtake
  have := (List.mem_filter.mp hvtake).2
  simpa using this

/-- C5: Warm-up floor.  Every emitted prediction carries a composite week
key that lies in `W[m:]` and not among the first m weeks of W. -/
theorem warm_up_floor (fit : FitFn) (df : Table) (modelName : String)
    (spec : ModelSpec) (m : ℕ) :
    ∀ p ∈ (train_expanding_window fit df modelName spec m).2,
      ∃ tw, predRowYW p = some tw ∧
        tw ∈ (wfWeeks df).drop m ∧ tw ∉ (wfWeeks df).take m := by
  intro p hp
  rcases mem_expanding_window fit df modelName spec m p hp with ⟨i, him, hil, hstep⟩
  have hyw := predRowYW_of_mem_wfStep fit df spec modelName i p hstep
  set W := wfWeeks df with hWdef
  have hm : m < W.length := lt_of_le_of_lt him hil
  have hnottake : W.getD i 0 ∉ W.take m := by
    intro hmem
    rw [take_eq_filter_lt W (wfWeeks_pairwise df) m hm] at hmem
    have hlt : W.getD i 0 < W.getD m 0 := by
      have := (List.mem_filter.mp hmem).2
      simpa using this
    rcases Nat.eq_or_lt_of_le him with he | hlt2
    · rw [← he] at hlt
      exact lt_irrefl _ hlt
    · exact absurd hlt (not_lt.mpr (le_of_lt (pairwise_lt_getD W (wfWeeks_pairwise df) m i hlt2 hil)))
  have hmemW : W.getD i 0 ∈ W := by
    rw [List.getD_eq_getElem W 0 hil]
    exact List.getElem_mem hil
  have hdrop : W.getD i 0 ∈ W.drop m := by
    have hsplit : W.take m ++ W.drop m = W := List.take_append_drop m W
    rcases List.mem_append.mp (by rw [hsplit]; exact hmemW) with h | h
    · exact absurd h hnottake
    · exact h
  exact ⟨W.getD i 0, hyw, hdrop, hnottake⟩

/-- C6: Row-count floor.  If the cleaned training set of loop index i has
fewer than 100 rows, no prediction for target week W[i] is emitted (and
the trainer, a total function, still returns: the loop merely skips). -/
theorem row_count_floor (fit : FitFn) (df : Table) (modelName : String)
    (spec : ModelSpec) (m : ℕ) (i : ℕ)
    (hil : i < (wfWeeks df).length)
    (h100 : (wfTrainClean df spec i).length < 100) :
    ∀ p ∈ (train_expanding_window fit df modelName spec m).2,
      predRowYW p ≠ some ((wfWeeks df).getD i 0) := by
  intro p hp heq
  rcases mem_expanding_window fit df modelName spec m p hp with ⟨j, hjm, hjl, hstep⟩
  have hyw := predRowYW_of_mem_wfStep fit df spec modelName j p hstep
  have hsame : (wfWeeks df).getD j 0 = (wfWeeks df).getD i 0 := by
    rw [hyw] at heq
    exact Option.some.inj heq
  have hij : j = i := by
    by_contra hne
    exact wfWeeks_getD_ne df j i hjl hil hne hsame
  subst hij
  rcases mem_wfStep fit df spec modelName j p hstep with ⟨-, hge, -⟩
  exact absurd h100 (not_lt.mpr hge)

/-- C7: Empty history.  With fewer than m+1 distinct composite weeks the
walk-forward trainer returns an explicitly empty prediction set; being a
total function it raises nothing. -/
theorem empty_history_soft (fit : FitFn) (df : Table) (modelName : String)
    (spec : ModelSpec) (m : ℕ)
    (h : (wfWeeks df).length < m + 1) :
    (train_expanding_window fit df modelName spec m).2 = [] := by
  unfold train_expanding_window
  have hz : (wfWeeks df).length - m = 0 := by omega
  rw [hz]
  rfl

/- Counting predictions per target week. -/

lemma filter_flatMap_comm {α β : Type} (L : List α) (g : α → List β) (p : β → Bool) :
    (L.flatMap g).filter p = L.flatMap (fun a => (g a).filter p) := by
  induction L with
  | nil => rfl
  | cons a t ih => simp [List.flatMap_cons, List.filter_append, ih]

lemma flatMap_eq_nil_of_forall {α : Type} (L : List ℕ) (g : ℕ → List α)
    (h : ∀ j ∈ L, g j = []) : L.flatMap g = [] := by
  induction L with
  | nil => rfl
  | cons b u ihu =>
      simp [List.flatMap_cons, h b (List.mem_cons_self b u),
        ihu (fun j hj => h j (List.mem_cons_of_mem b hj))]

lemma flatMap_eq_single {α : Type} (L : List ℕ) (g : ℕ → List α) (i : ℕ)
    (hnd : L.Nodup) (hiL : i ∈ L) (hz : ∀ j ∈ L, j ≠ i → g j = []) :
    L.flatMap g = g i := by
  induction L with
  | nil => simp at hiL
  | cons a t ih =>
      rcases List.nodup_cons.mp hnd with ⟨hat, hnt⟩
      rcases List.mem_cons.mp hiL with h | h
      · subst h
        have htail : ∀ j ∈ t, g j = [] := by
          intro j hj
          refine hz j (List.mem_cons_of_mem _ hj) ?_
          intro he
          exact hat (he ▸ hj)
        simp [List.flatMap_cons, flatMap_eq_nil_of_forall t g htail]
      · have ha : g a = [] := hz a (List.mem_cons_self a t) (fun he => hat (he ▸ h))
        simp [List.flatMap_cons, ha,
          ih hnt h (fun j hj hne => hz j (List.mem_cons_of_mem a hj) hne)]

/-- C3 (amended): test rows with a null available-feature value are
dropped, not filled.  For any loop index i in range, the number of
predictions the trainer emits for target week W[i] equals, when the
test-set and 100-row guards pass, the number of test rows surviving
`dropna(subset=available_features)` — every test row with a null
available feature is removed — and the week is skipped exactly when no
test row survives that drop. -/
theorem test_set_drop_rule (fit : FitFn) (df : Table) (modelName : String)
    (spec : ModelSpec) (m : ℕ) (i : ℕ)
    (him : m ≤ i) (hil : i < (wfWeeks df).length) :
    ((train_expanding_window fit df modelName spec m).2.filter
        (fun p => decide (predRowYW p = some ((wfWeeks df).getD i 0)))).length =
      (if (wfTestDf df ((wfWeeks df).getD i 0)).isEmpty = false ∧
          100 ≤ (wfTrainClean df spec i).length
       then (wfTestClean df spec ((wfWeeks df).getD i 0)).length else 0) ∧
    wfTestClean df spec ((wfWeeks df).getD i 0) =
      (wfTestDf df ((wfWeeks df).getD i 0)).filter
        (fun r => rowNotNull r (availFeats df spec)) := by
  constructor
  · set W := wfWeeks df with hW
    set pf : PredRow → Bool := fun p => decide (predRowYW p = some (W.getD i 0)) with hpf
    have hstep1 :
        (train_expanding_window fit df modelName spec m).2.filter pf =
          (List.range' m (W.length - m)).flatMap
            (fun j => (wfStep fit df spec modelName j).filter pf) := by
      unfold train_expanding_window
      exact filter_flatMap_comm _ _ _
    have hothers : ∀ j ∈ List.range' m (W.length - m), j ≠ i →
        (wfStep fit df spec modelName j).filter pf = [] := by
      intro j hj hne
      rcases List.mem_range'_1.mp hj with ⟨hjm, hju⟩
      have hjl : j < W.length := by omega
      rw [List.filter_eq_nil_iff]
      intro p hp
      have hyw := predRowYW_of_mem_wfStep fit df spec modelName j p hp
      have hne2 : W.getD j 0 ≠ W.getD i 0 := wfWeeks_getD_ne df j i hjl hil hne
      intro hcontra
      rw [hpf] at hcontra
      have h3 := of_decide_eq_true hcontra
      rw [hyw] at h3
      exact hne2 (Option.some.inj h3)
    have hself : (wfStep fit df spec modelName i).filter pf = wfStep fit df spec modelName i := by
      rw [List.filter_eq_self]
      intro p hp
      simp [hpf, predRowYW_of_mem_wfStep fit df spec modelName i p hp]
    have hiL : i ∈ List.range' m (W.length - m) :=
      List.mem_range'_1.mpr ⟨him, by omega⟩
    have hnd : (List.range' m (W.length - m)).Nodup := List.nodup_range' _ _
    rw [hstep1, flatMap_eq_single _ _ i hnd hiL hothers, hself]
    by_cases hA : (wfTestDf df (W.getD i 0)).isEmpty = true
    · have hs : wfStep fit df spec modelName i = [] := by
        simp only [wfStep]
        rw [if_pos hA]
      rw [hs, if_neg]
      · rfl
      · rintro ⟨hfalse, -⟩
        rw [hA] at hfalse
        cases hfalse
    · have hA2 : (wfTestDf df (W.getD i 0)).isEmpty = false := Bool.eq_false_iff.mpr hA
      by_cases hB : (wfTrainClean df spec i).length < 100
      · have hs : wfStep fit df spec modelName i = [] := by
          simp only [wfStep]
          rw [if_neg hA, if_pos hB]
        rw [hs, if_neg]
        · rfl
        · rintro ⟨-, hge⟩
          exact absurd hge (not_le.mpr hB)
      · have hcond : (wfTestDf df (W.getD i 0)).isEmpty = false ∧
            100 ≤ (wfTrainClean df spec i).length := ⟨hA2, not_lt.mp hB⟩
        rw [if_pos hcond]
        by_cases hC : (wfTestClean df spec (W.getD i 0)).isEmpty = true
        · have hs : wfStep fit df spec modelName i = [] := by
            simp only [wfStep]
            rw [if_neg hA, if_neg hB, if_pos hC]
          rw [hs]
          cases hCe : wfTestClean df spec (W.getD i 0) with
          | nil => rfl
          | cons x xs => rw [hCe] at hC; simp at hC
        · have hs : wfStep fit df spec modelName i =
              (wfTestClean df spec (W.getD i 0)).map (mkWfPred fit df spec modelName i) := by
            simp only [wfStep]
            rw [if_neg hA, if_neg hB, if_neg hC]
          rw [hs, List.length_map]
  · rfl

/- Specification of the strict-improvement selection loop. -/

lemma selectFrom_none_of_nonfin (l : List WVal) :
    ∀ pos, (∀ w ∈ l, w = WVal.nonfin) → selectFrom pos none l = none := by
  induction l with
  | nil => intro pos _; rfl
  | cons w rest ih =>
      intro pos hall
      have hw : w = WVal.nonfin := hall w (List.mem_cons_self w rest)
      subst hw
      show selectFrom (pos + 1) none rest = none
      exact ih (pos + 1) (fun v hv => hall v (List.mem_cons_of_mem _ hv))

lemma selectFrom_spec (l : List WVal) :
    ∀ (pos : ℕ) (best : Option (ℕ × ℚ)),
      (∀ bk bq, best = some (bk, bq) → bk < pos) →
      ∀ k q, selectFrom pos best l = some (k, q) →
        (best = some (k, q) ∨
          (pos ≤ k ∧ k - pos < l.length ∧ l.getD (k - pos) WVal.nonfin = WVal.fin q)) ∧
        (∀ j qq, j < l.length → l.getD j WVal.nonfin = WVal.fin qq → q ≤ qq) ∧
        (∀ j qq, pos + j < k → j < l.length → l.getD j WVal.nonfin = WVal.fin qq → q < qq) ∧
        (∀ bk bq, best = some (bk, bq) → q ≤ bq ∧ (k ≠ bk → q < bq)) := by
  induction l with
  | nil =>
      intro pos best hb k q hres
      have hbp : best = some (k, q) := hres
      refine ⟨Or.inl hbp, ?_, ?_, ?_⟩
      · intro j qq hj _; simp at hj
      · intro j qq _ hj _; simp at hj
      · intro bk bq heq
        rw [hbp] at heq
        have h1 : k = bk := (Prod.mk.injEq _ _ _ _).mp (Option.some.inj heq) |>.1
        have h2 : q = bq := (Prod.mk.injEq _ _ _ _).mp (Option.some.inj heq) |>.2
        exact ⟨le_of_eq h2, fun hne => absurd h1 hne⟩
  | cons w rest ih =>
      intro pos best hb k q hres
      cases w with
      | nonfin =>
          have hres2 : selectFrom (pos + 1) best rest = some (k, q) := hres
          have IH := ih (pos + 1) best
            (fun bk bq h => Nat.lt_succ_of_lt (hb bk bq h)) k q hres2
          refine ⟨?_, ?_, ?_, IH.2.2.2⟩
          · rcases IH.1 with h | ⟨h1, h2, h3⟩
            · exact Or.inl h
            · refine Or.inr ⟨by omega, by simpa using (by omega : k - pos < rest.length + 1), ?_⟩
              have hkp : k - pos = (k - (pos + 1)) + 1 := by omega
              rw [hkp, List.getD_cons_succ]
              exact h3
          · intro j qq hj hg
            match j with
            | 0 => rw [List.getD_cons_zero] at hg; cases hg
            | jj + 1 =>
                rw [List.getD_cons_succ] at hg
                exact IH.2.1 jj qq (by simpa using hj) hg
          · intro j qq hjk hj hg
            match j with
            | 0 => rw [List.getD_cons_zero] at hg; cases hg
            | jj + 1 =>
                rw [List.getD_cons_succ] at hg
                exact IH.2.2.1 jj qq (by omega) (by simpa using hj) hg
      | fin q0 =>
          cases best with
          | none =>
              have hres2 : selectFrom (pos + 1) (some (pos, q0)) rest = some (k, q) := hres
              have IH := ih (pos + 1) (some (pos, q0))
                (fun bk bq h => by
                  have h1 := ((Prod.mk.injEq _ _ _ _).mp (Option.some.inj h)).1
                  omega) k q hres2
              have hq0 : q ≤ q0 ∧ (k ≠ pos → q < q0) := IH.2.2.2 pos q0 rfl
              refine ⟨?_, ?_, ?_, ?_⟩
              · rcases IH.1 with h | ⟨h1, h2, h3⟩
                · have hk : k = pos := (((Prod.mk.injEq _ _ _ _).mp (Option.some.inj h)).1).symm
                  have hq : q = q0 := (((Prod.mk.injEq _ _ _ _).mp (Option.some.inj h)).2).symm
                  refine Or.inr ⟨le_of_eq hk.symm, ?_, ?_⟩
                  · rw [hk]; simp
                  · rw [hk]
                    simp only [Nat.sub_self, List.getD_cons_zero]
                    rw [hq]
                · refine Or.inr ⟨by omega, by simpa using (by omega : k - pos < rest.length + 1), ?_⟩
                  have hkp : k - pos = (k - (pos + 1)) + 1 := by omega
                  rw [hkp, List.getD_cons_succ]
                  exact h3
              · intro j qq hj hg
                match j with
                | 0 =>
                    rw [List.getD_cons_zero] at hg
                    have : q0 = qq := WVal.fin.inj hg
                    exact this ▸ hq0.1
                | jj + 1 =>
                    rw [List.getD_cons_succ] at hg
                    exact IH.2.1 jj qq (by simpa using hj) hg
              · intro j qq hjk hj hg
                match j with
                | 0 =>
                    rw [List.getD_cons_zero] at hg
                    have hqq : q0 = qq := WVal.fin.inj hg
                    have hkp : k ≠ pos := by omega
                    exact hqq ▸ hq0.2 hkp
                | jj + 1 =>
                    rw [List.getD_cons_succ] at hg
                    exact IH.2.2.1 jj qq (by omega) (by simpa using hj) hg
              · intro bk bq heq; cases heq
          | some bkq =>
              obtain ⟨bk, bq⟩ := bkq
              have hbk : bk < pos := hb bk bq rfl
              by_cases hlt : q0 < bq
              · have hres2 : selectFrom (pos + 1) (some (pos, q0)) rest = some (k, q) := by
                  simpa [selectFrom, hlt] using hres
                have IH := ih (pos + 1) (some (pos, q0))
                  (fun bk2 bq2 h => by
                    have h1 := ((Prod.mk.injEq _ _ _ _).mp (Option.some.inj h)).1
                    omega) k q hres2
                have hq0 : q ≤ q0 ∧ (k ≠ pos → q < q0) := IH.2.2.2 pos q0 rfl
                refine ⟨?_, ?_, ?_, ?_⟩
                · rcases IH.1 with h | ⟨h1, h2, h3⟩
                  · have hk : k = pos := (((Prod.mk.injEq _ _ _ _).mp (Option.some.inj h)).1).symm
                    have hq : q = q0 := (((Prod.mk.injEq _ _ _ _).mp (Option.some.inj h)).2).symm
                    refine Or.inr ⟨le_of_eq hk.symm, ?_, ?_⟩
                    · rw [hk]; simp
                    · rw [hk]
                      simp only [Nat.sub_self, List.getD_cons_zero]
                      rw [hq]
                  · refine Or.inr ⟨by omega, by simpa using (by omega : k - pos < rest.length + 1), ?_⟩
                    have hkp : k - pos = (k - (pos + 1)) + 1 := by omega
                    rw [hkp, List.getD_cons_succ]
                    exact h3
                · intro j qq hj hg
                  match j with
                  | 0 =>
                      rw [List.getD_cons_zero] at hg
                      exact (WVal.fin.inj hg) ▸ hq0.1
                  | jj + 1 =>
                      rw [List.getD_cons_succ] at hg
                      exact IH.2.1 jj qq (by simpa using hj) hg
                · intro j qq hjk hj hg
                  match j with
                  | 0 =>
                      rw [List.getD_cons_zero] at hg
                      exact (WVal.fin.inj hg) ▸ hq0.2 (by omega)
                  | jj + 1 =>
                      rw [List.getD_cons_succ] at hg
                      exact IH.2.2.1 jj qq (by omega) (by simpa using hj) hg
                · intro bk2 bq2 heq
                  have h2 : bq = bq2 := ((Prod.mk.injEq _ _ _ _).mp (Option.some.inj heq)).2
                  rw [← h2]
                  exact ⟨le_of_lt (lt_of_le_of_lt hq0.1 hlt), fun _ => lt_of_le_of_lt hq0.1 hlt⟩
              · have hres2 : selectFrom (pos + 1) (some (bk, bq)) rest = some (k, q) := by
                  simpa [selectFrom, hlt] using hres
                have IH := ih (pos + 1) (some (bk, bq))
                  (fun bk2 bq2 h => by
                    have h1 := ((Prod.mk.injEq _ _ _ _).mp (Option.some.inj h)).1
                    omega) k q hres2
                have hle : bq ≤ q0 := not_lt.mp hlt
                have hbb : q ≤ bq ∧ (k ≠ bk → q < bq) := IH.2.2.2 bk bq rfl
                refine ⟨?_, ?_, ?_, ?_⟩
                · rcases IH.1 with h | ⟨h1, h2, h3⟩
                  · exact Or.inl h
                  · refine Or.inr ⟨by omega, by simpa using (by omega : k - pos < rest.length + 1), ?_⟩
                    have hkp : k - pos = (k - (pos + 1)) + 1 := by omega
                    rw [hkp, List.getD_cons_succ]
                    exact h3
                · intro j qq hj hg
                  match j with
                  | 0 =>
                      rw [List.getD_cons_zero] at hg
                      exact (WVal.fin.inj hg) ▸ le_trans hbb.1 hle
                  | jj + 1 =>
                      rw [List.getD_cons_succ] at hg
                      exact IH.2.1 jj qq (by simpa using hj) hg
                · intro j qq hjk hj hg
                  match j with
                  | 0 =>
                      rw [List.getD_cons_zero] at hg
                      have hqq : q0 = qq := WVal.fin.inj hg
                      rcases IH.1 with h | ⟨h1, h2, h3⟩
                      · have hk : bk = k := ((Prod.mk.injEq _ _ _ _).mp (Option.some.inj h)).1
                        omega
                      · have hkne : k ≠ bk := by omega
                        exact hqq ▸ lt_of_lt_of_le (hbb.2 hkne) hle
                  | jj + 1 =>
                      rw [List.getD_cons_succ] at hg
                      exact IH.2.2.1 jj qq (by omega) (by simpa using hj) hg
                · intro bk2 bq2 heq
                  have h1 : bk = bk2 := ((Prod.mk.injEq _ _ _ _).mp (Option.some.inj heq)).1
                  have h2 : bq = bq2 := ((Prod.mk.injEq _ _ _ _).mp (Option.some.inj heq)).2
                  rw [← h1, ← h2]
                  exact hbb

/-- The winning index of selectBest achieves the minimum finite score and
strictly beats every earlier finite score. -/
lemma selectBest_spec (scores : List WVal) (k : ℕ) (q : ℚ)
    (h : selectBest scores = some (k, q)) :
    k < scores.length ∧ scores.getD k WVal.nonfin = WVal.fin q ∧
    (∀ j qq, j < scores.length → scores.getD j WVal.nonfin = WVal.fin qq → q ≤ qq) ∧
    (∀ j qq, j < k → scores.getD j WVal.nonfin = WVal.fin qq → q < qq) := by
  have hs := selectFrom_spec scores 0 none (by intro bk bq hcontra; cases hcontra) k q h
  rcases hs.1 with habs | ⟨h1, h2, h3⟩
  · cases habs
  · refine ⟨by omega, by simpa using h3, hs.2.1, ?_⟩
    intro j qq hj hg
    exact hs.2.2.1 j qq (by omega) (by omega) hg


lemma coreScores_length (algos : List Algo) (X : List (List ℚ)) (y : List ℚ)
    (ts : ℚ) : (coreScores algos X y ts).length = algos.length := by
  simp [coreScores, algoPreds]

/-- C4: Holdout selection rule.  Whenever train_final_model returns a
result, the algorithm tag of every holdout prediction row is the name of
the roster entry at the selected index; that index achieves the minimum
finite WMAPE score (sum of absolute errors over sum of absolute actuals,
times 100, as computed by wmapeOf inside coreScores) and strictly beats
every roster entry before it, so equal scores are resolved in favour of
the first-seen algorithm. -/
theorem holdout_selection_rule (algos : List Algo) (df : Table)
    (modelName : String) (spec : ModelSpec) (ts : ℚ)
    (X : List (List ℚ)) (y : List ℚ) (md : Table) (fns : List String)
    (res : List MetricRow) (imp : List ImportanceRow) (ptbl : Table)
    (hprep : prepare_data df spec = Except.ok (X, y, md, fns))
    (hok : train_final_model algos df modelName spec ts = Except.ok (res, imp, ptbl)) :
    ∃ k q, k < algos.length ∧
      selectBest (coreScores algos X y ts) = some (k, q) ∧
      (coreScores algos X y ts).getD k WVal.nonfin = WVal.fin q ∧
      (∀ j qq, j < algos.length →
        (coreScores algos X y ts).getD j WVal.nonfin = WVal.fin qq → q ≤ qq) ∧
      (∀ j qq, j < k →
        (coreScores algos X y ts).getD j WVal.nonfin = WVal.fin qq → q < qq) ∧
      (∀ r ∈ ptbl.rows, rowGet r "algorithm" = Cell.str ((algos.getD k defaultAlgo).name)) := by
  simp only [train_final_model, hprep] at hok
  simp only [train_final_core] at hok
  cases hsel : selectBest (coreScores algos X y ts) with
  | none =>
      rw [hsel] at hok
      cases hok
  | some kq =>
      obtain ⟨k, q⟩ := kq
      rw [hsel] at hok
      simp only [Except.ok.injEq, Prod.mk.injEq] at hok
      obtain ⟨-, -, hpt⟩ := hok
      have hspec := selectBest_spec _ k q hsel
      have hlen := coreScores_length algos X y ts
      refine ⟨k, q, by omega, rfl, hspec.2.1,
        (fun j qq hj hg => hspec.2.2.1 j qq (by omega) hg), hspec.2.2.2, ?_⟩
      intro r hr
      rw [← hpt] at hr
      rcases List.mem_map.mp hr with ⟨rp, -, hrp⟩
      rw [← hrp]
      have : (algos.getD k { name := "", run := fun _ _ _ => [], importances := none }) =
          algos.getD k defaultAlgo := rfl
      rw [← this]
      exact rowGet_set_same _ "algorithm" _

/-- C9: All-zero holdout actuals.  When prepare_data succeeds and every
actual value of the held-out 20 percent is zero, the WMAPE of every
roster algorithm divides by a zero denominator and is non-finite, the
strict-improvement comparison never selects a winner, and
train_final_model fails with the NoneType error raised while building
the prediction table instead of returning metrics, importances and
predictions. -/
theorem holdout_zero_actuals_failure (algos : List Algo) (df : Table)
    (modelName : String) (spec : ModelSpec) (ts : ℚ)
    (X : List (List ℚ)) (y : List ℚ) (md : Table) (fns : List String)
    (hprep : prepare_data df spec = Except.ok (X, y, md, fns))
    (hzero : ∀ a ∈ y.drop (nTrainOf X ts), a = 0) :
    (∀ w ∈ coreScores algos X y ts, w = WVal.nonfin) ∧
    train_final_model algos df modelName spec ts =
      Except.error "AttributeError: NoneType object has no attribute predict" := by
  have hsum : sumAbs (y.drop (nTrainOf X ts)) = 0 := by
    unfold sumAbs
    apply List.sum_eq_zero
    intro x hx
    rcases List.mem_map.mp hx with ⟨a, ha, hax⟩
    rw [← hax, hzero a ha, abs_zero]
  have hall : ∀ w ∈ coreScores algos X y ts, w = WVal.nonfin := by
    intro w hw
    rcases List.mem_map.mp hw with ⟨yp, -, hwe⟩
    rw [← hwe]
    unfold wmapeOf
    rw [if_pos hsum]
  refine ⟨hall, ?_⟩
  have hnone : selectBest (coreScores algos X y ts) = none :=
    selectFrom_none_of_nonfin _ 0 hall
  simp only [train_final_model, hprep, train_final_core, hnone]

/-- C8: Missing-target failure.  prepare_data fails exactly when the
target column of the spec is absent from the feature table, and when the
column is present it returns the cleaned feature matrix, the target
vector, the metadata slice and the usable feature names. -/
theorem missing_target_iff (df : Table) (spec : ModelSpec) :
    ((∃ e, prepare_data df spec = Except.error e) ↔ spec.target ∉ df.cols) ∧
    (spec.target ∈ df.cols →
      prepare_data df spec = Except.ok
        ((ppClean df spec).map (featVec (availFeats df spec)),
         (ppClean df spec).map (fun r => featVal r spec.target),
         { cols := ppMetaCols df spec
         , rows := (ppClean df spec).map (fun r =>
             (ppMetaCols df spec).map (fun c => (c, rowGet r c))) },
         availFeats df spec)) := by
  by_cases h : spec.target ∈ df.cols
  · constructor
    · constructor
      · rintro ⟨e, he⟩
        unfold prepare_data at he
        rw [if_pos h] at he
        cases he
      · intro hno
        exact absurd h hno
    · intro _
      unfold prepare_data
      rw [if_pos h]
  · constructor
    · constructor
      · intro _
        exact h
      · intro _
        unfold prepare_data
        rw [if_neg h]
        exact ⟨_, rfl⟩
    · intro hmem
      exact absurd hmem h

/-- C2 (amended): WMAPE floors.  Every WMAPE produced by the Accuracy
Aggregator has its denominator floored at 1 via clip(lower=1) and is a
finite non-negative number; the Holdout Evaluator's per-algorithm WMAPE,
by contrast, has no floor: whenever all actual values of a prediction
set are zero it divides by a zero denominator and is non-finite. -/
theorem wmape_zero_floor_corrected :
    (∀ (pdf : Table) (modelName : String) (spec : ModelSpec),
      ∀ pr ∈ calculate_accuracy_breakdowns pdf modelName spec, ∀ b ∈ pr.2,
        b.wmape = b.abs_error / max b.actual 1 * 100 ∧
        (1 : ℚ) ≤ max b.actual 1 ∧ 0 ≤ b.wmape) ∧
    (∀ yt yp : List ℚ, (∀ a ∈ yt, a = 0) → wmapeOf yt yp = WVal.nonfin) := by
  constructor
  · intro pdf modelName spec pr hpr b hb
    have hbrow : ∃ cols, b ∈ aggFor pdf.rows cols modelName := by
      unfold calculate_accuracy_breakdowns at hpr
      rcases List.mem_cons.mp hpr with hw | hg
      · exact ⟨["year", "week_number"], by rw [hw] at hb; exact hb⟩
      · rcases List.mem_map.mp hg with ⟨c, -, hc⟩
        exact ⟨[c], by rw [← hc] at hb; exact hb⟩
    rcases hbrow with ⟨cols, hbagg⟩
    unfold aggFor at hbagg
    rcases List.mem_map.mp hbagg with ⟨k, -, hk⟩
    have habs : 0 ≤ b.abs_error := by
      rw [← hk]
      apply List.sum_nonneg
      intro x hx
      rcases List.mem_map.mp hx with ⟨r, -, hr⟩
      rw [← hr]
      unfold rowAbsErrQ
      cases rowGet r "actual" <;> cases rowGet r "predicted" <;> simp [abs_nonneg]
    have hwm : b.wmape = b.abs_error / max b.actual 1 * 100 := by rw [← hk]
    refine ⟨hwm, le_max_right _ _, ?_⟩
    rw [hwm]
    have hden : (0 : ℚ) < max b.actual 1 := lt_of_lt_of_le one_pos (le_max_right _ _)
    have := div_nonneg habs (le_of_lt hden)
    linarith
  · intro yt yp hz
    unfold wmapeOf
    rw [if_pos]
    unfold sumAbs
    apply List.sum_eq_zero
    intro x hx
    rcases List.mem_map.mp hx with ⟨a, ha, hax⟩
    rw [← hax, hz a ha, abs_zero]

/-- C10: Frame effect of the walk-forward trainer.  The trainer mutates
the caller's DataFrame by assigning the year_week column (computed as
year*100 + week_number, overwriting any existing column of that name),
leaving every other column of every row unchanged; run_model_pipeline
then hands exactly that mutated frame to the holdout evaluator. -/
theorem year_week_frame_effect (fit : FitFn) (df : Table) (modelName : String)
    (spec : ModelSpec) (m : ℕ) :
    (train_expanding_window fit df modelName spec m).1 = dfYW df ∧
    "year_week" ∈ (dfYW df).cols ∧
    (dfYW df).rows.length = df.rows.length ∧
    (∀ k, k < df.rows.length →
      rowGet ((dfYW df).rows.getD k []) "year_week" = rowYW (df.rows.getD k []) ∧
      ∀ c, c ≠ "year_week" →
        rowGet ((dfYW df).rows.getD k []) c = rowGet (df.rows.getD k []) c) ∧
    (∀ c, c ∈ (dfYW df).cols ↔ (c ∈ df.cols ∨ c = "year_week")) ∧
    (∀ algos, df.rows.isEmpty = false →
      run_model_pipeline fit algos df modelName spec =
        match train_final_model algos (dfYW df) modelName spec (1 / 5) with
        | Except.error e => Except.error e
        | Except.ok (mets, imp, fp) =>
            Except.ok { expanding_predictions := (train_expanding_window fit df modelName spec 12).2
                      , final_predictions := fp
                      , metrics := mets
                      , importance := imp
                      , breakdowns := calculate_accuracy_breakdowns fp modelName spec }) := by
  refine ⟨rfl, ?_, ?_, ?_, ?_, ?_⟩
  · unfold dfYW setCol
    by_cases h : "year_week" ∈ df.cols
    · simp only [h, if_true]
    · simp [h]
  · unfold dfYW setCol
    simp
  · intro k hk
    have hrow : (dfYW df).rows.getD k [] = rowSet (df.rows.getD k []) "year_week" (rowYW (df.rows.getD k [])) := by
      unfold dfYW setCol
      simp only
      rw [List.getD_eq_getElem _ _ (by simpa using hk), List.getElem_map]
      rw [List.getD_eq_getElem _ _ hk]
    constructor
    · rw [hrow, rowGet_set_same]
    · intro c hc
      rw [hrow, rowGet_set_other _ _ _ _ hc]
  · intro c
    unfold dfYW setCol
    by_cases h : "year_week" ∈ df.cols
    · simp only [h, if_true]
      constructor
      · intro hc; exact Or.inl hc
      · rintro (hc | hc)
        · exact hc
        · rw [hc]; exact h
    · simp only [h, if_false]
      rw [List.mem_append]
      simp
  · intro algos hne
    unfold run_model_pipeline
    rw [hne]
    rfl

/-- C3 counterexample: on df0 the target week 202302 has two test rows,
one of them with a null available-feature value; that row is removed by
the dropna (not retained with a filled value), so only one prediction is
emitted for the week. -/
theorem test_set_drop_counterexample :
    (wfTestDf df0 202302).length = 2 ∧
    ((wfTestDf df0 202302).filter (fun r => ! rowNotNull r (availFeats df0 spec0))).length = 1 ∧
    ((train_expanding_window fit0 df0 "demand" spec0 1).2).length = 1 := by
  decide

/-- C2 counterexample: the Holdout Evaluator's per-algorithm WMAPE on a
prediction set whose actual values are all zero has denominator
`sum(abs(actuals)) = 0` — it is not floored at 1 and the result is a
non-finite float, refuting the claim that every WMAPE computation in the
pipeline floors its denominator. -/
theorem wmape_zero_floor_counterexample :
    sumAbs [0, 0] = 0 ∧ wmapeOf [0, 0] [3, 4] = WVal.nonfin := by
  decide

/-- Witness for C1 on the concrete table df0. -/
theorem walk_forward_leakage_invariant_witness :
    ∃ i, 1 ≤ i ∧ i < (wfWeeks df0).length ∧
      predRowYW p0 = some ((wfWeeks df0).getD i 0) ∧
      (∀ r ∈ wfTrainClean df0 spec0 i,
        ∃ v, rowGet r "year_week" = Cell.num v ∧ v < (wfWeeks df0).getD i 0) ∧
      (wfWeeks df0).take i =
        (wfWeeks df0).filter (fun w => decide (w < (wfWeeks df0).getD i 0)) :=
  walk_forward_leakage_invariant fit0 df0 "demand" spec0 1 p0 (by decide)

/-- Witness for C5 on the concrete table df0. -/
theorem warm_up_floor_witness :
    ∃ tw, predRowYW p0 = some tw ∧
      tw ∈ (wfWeeks df0).drop 1 ∧ tw ∉ (wfWeeks df0).take 1 :=
  warm_up_floor fit0 df0 "demand" spec0 1 p0 (by decide)

/-- Witness for C6: index 0 of df0 has an empty cleaned training set, so
the emitted prediction does not carry week 202301. -/
theorem row_count_floor_witness :
    predRowYW p0 ≠ some ((wfWeeks df0).getD 0 0) :=
  row_count_floor fit0 df0 "demand" spec0 1 0 (by decide) (by decide) p0 (by decide)

/-- Witness for C7 on the empty table. -/
theorem empty_history_soft_witness :
    (train_expanding_window fit0 dfE "demand" spec0 12).2 = [] :=
  empty_history_soft fit0 dfE "demand" spec0 12 (by decide)

/-- Witness for the amended C3 on df0 at loop index 1. -/
theorem test_set_drop_rule_witness :
    ((train_expanding_window fit0 df0 "demand" spec0 1).2.filter
        (fun p => decide (predRowYW p = some ((wfWeeks df0).getD 1 0)))).length =
      (if (wfTestDf df0 ((wfWeeks df0).getD 1 0)).isEmpty = false ∧
          100 ≤ (wfTrainClean df0 spec0 1).length
       then (wfTestClean df0 spec0 ((wfWeeks df0).getD 1 0)).length else 0) ∧
    wfTestClean df0 spec0 ((wfWeeks df0).getD 1 0) =
      (wfTestDf df0 ((wfWeeks df0).getD 1 0)).filter
        (fun r => rowNotNull r (availFeats df0 spec0)) :=
  test_set_drop_rule fit0 df0 "demand" spec0 1 1 (by decide) (by decide)

/-- Witness for C8: with the target present, prepare_data on df1 returns
the four components. -/
theorem missing_target_iff_witness :
    prepare_data df1 spec1 = Except.ok
      ((ppClean df1 spec1).map (featVec (availFeats df1 spec1)),
       (ppClean df1 spec1).map (fun r => featVal r spec1.target),
       { cols := ppMetaCols df1 spec1
       , rows := (ppClean df1 spec1).map (fun r =>
           (ppMetaCols df1 spec1).map (fun c => (c, rowGet r c))) },
       availFeats df1 spec1) :=
  (missing_target_iff df1 spec1).2 (by decide)

/-- Witness for C4 on the concrete table df2 with a one-entry roster. -/
theorem holdout_selection_rule_witness :
    ∃ k q, k < ([algoA] : List Algo).length ∧
      selectBest (coreScores [algoA] [[1], [2]] [5, 7] (1 / 5)) = some (k, q) ∧
      (coreScores [algoA] [[1], [2]] [5, 7] (1 / 5)).getD k WVal.nonfin = WVal.fin q ∧
      (∀ j qq, j < ([algoA] : List Algo).length →
        (coreScores [algoA] [[1], [2]] [5, 7] (1 / 5)).getD j WVal.nonfin = WVal.fin qq → q ≤ qq) ∧
      (∀ j qq, j < k →
        (coreScores [algoA] [[1], [2]] [5, 7] (1 / 5)).getD j WVal.nonfin = WVal.fin qq → q < qq) ∧
      (∀ r ∈ (okParts tfm2).2.2.rows,
        rowGet r "algorithm" = Cell.str (([algoA].getD k defaultAlgo).name)) :=
  holdout_selection_rule [algoA] df2 "demand" spec1 (1 / 5) [[1], [2]] [5, 7] md1 ["f"]
    (okParts tfm2).1 (okParts tfm2).2.1 (okParts tfm2).2.2 (by rfl) (by rfl)

/-- Witness for C9 on the all-zero-target table df1. -/
theorem holdout_zero_actuals_failure_witness :
    (∀ w ∈ coreScores [algo1] [[1], [2]] [0, 0] (1 / 5), w = WVal.nonfin) ∧
    train_final_model [algo1] df1 "demand" spec1 (1 / 5) =
      Except.error "AttributeError: NoneType object has no attribute predict" :=
  holdout_zero_actuals_failure [algo1] df1 "demand" spec1 (1 / 5) [[1], [2]] [0, 0] md1 ["f"]
    (by rfl) (by decide)

/-- Witness for the amended C2: the weekly rollup row of pdf0 and a
zero-actual holdout WMAPE. -/
theorem wmape_zero_floor_witness :
    (b0.wmape = b0.abs_error / max b0.actual 1 * 100 ∧
      (1 : ℚ) ≤ max b0.actual 1 ∧ 0 ≤ b0.wmape) ∧
    wmapeOf [0] [3] = WVal.nonfin :=
  ⟨wmape_zero_floor_corrected.1 pdf0 "demand" spec1 pr0 (by decide) b0 (by decide),
   wmape_zero_floor_corrected.2 [0] [3] (by decide)⟩

/-- Witness for C10 on the concrete table df1. -/
theorem year_week_frame_effect_witness :
    rowGet ((dfYW df1).rows.getD 0 []) "year_week" = rowYW (df1.rows.getD 0 []) ∧
    rowGet ((dfYW df1).rows.getD 0 []) "t" = rowGet (df1.rows.getD 0 []) "t" ∧
    "year_week" ∈ (dfYW df1).cols :=
  ⟨((year_week_frame_effect fit0 df1 "demand" spec1 3).2.2.2.1 0 (by decide)).1,
   ((year_week_frame_effect fit0 df1 "demand" spec1 3).2.2.2.1 0 (by decide)).2 "t" (by decide),
   (year_week_frame_effect fit0 df1 "demand" spec1 3).2.1⟩
